import Mathlib

/-
  Verification development for the RESCUE metrics module (metrics.py).

  Embedding conventions:
  * A pandas Series is a pair of a timestamp index (int64 nanoseconds, as ℤ)
    and rational values.  numpy floats are modelled by ℚ, with NaN modelled
    by `none` in `Option ℚ`.
  * Python exceptions raised by pandas (KeyError on a missing (tau, fold)
    column, ValueError on comparison of differently-labelled series) are
    modelled by `Except MErr`; `MissingFoldData` stands for the KeyError and
    `ShapeMismatch` for the comparison ValueError.
  * `np.mean` of an empty array returns NaN (it only warns), hence `npMean`
    returns `none` on the empty list.
  * pandas arithmetic between series with different indexes aligns on the
    sorted union of the labels, filling NaN; comparison operators instead
    raise.  `seriesSub` implements the aligning subtraction.
-/

structure Series where
  idx : List ℤ
  vals : List ℚ
deriving DecidableEq

inductive MErr where
  | ShapeMismatch
  | MissingFoldData
deriving DecidableEq

/-- np.mean: NaN (`none`) on an empty array, otherwise sum divided by length. -/
def npMean (l : List ℚ) : Option ℚ :=
  if l = [] then none else some (l.sum / l.length)

/-- Mean of a list that may contain NaN entries: any NaN poisons the mean. -/
def npMeanO (l : List (Option ℚ)) : Option ℚ :=
  if l.any Option.isNone then none else npMean (l.filterMap id)

/-- np.max over a possibly-NaN array; the empty case (which numpy rejects)
is mapped to `none` and is never exercised below. -/
def npMaxO (l : List (Option ℚ)) : Option ℚ :=
  if l.any Option.isNone then none else (l.filterMap id).max?

/-- Combine two possibly-NaN scalars, propagating NaN. -/
def oMap2 (f : ℚ → ℚ → ℚ) : Option ℚ → Option ℚ → Option ℚ
  | some a, some b => some (f a b)
  | _, _ => none

/-- Label-based lookup into a series, as pandas alignment performs it. -/
def alookupZ (l : List (ℤ × ℚ)) (i : ℤ) : Option ℚ :=
  (l.find? (fun p => decide (p.1 = i))).map Prod.snd

/-- Sorted deduplication, as np.sort(np.unique(...)) produces (insertion sort
over `List.dedup`; only membership matters to the proofs below). -/
def insertSorted {α : Type} [LinearOrder α] (a : α) : List α → List α
  | [] => [a]
  | b :: bs => if a ≤ b then a :: b :: bs else b :: insertSorted a bs

def sortedUnique {α : Type} [LinearOrder α] [DecidableEq α] (l : List α) : List α :=
  l.dedup.foldr insertSorted []

/-- pandas subtraction `a - b`: positional when the labels coincide,
otherwise aligned on the sorted union of the labels with NaN fill. -/
def seriesSub (a b : Series) : List (Option ℚ) :=
  if a.idx = b.idx then
    List.zipWith (fun x y => some (x - y)) a.vals b.vals
  else
    (sortedUnique (a.idx ++ b.idx)).map (fun i =>
      oMap2 (fun x y => x - y) (alookupZ (a.idx.zip a.vals) i) (alookupZ (b.idx.zip b.vals) i))

/-- np.mean(y_true <= y_pred): the pandas comparison raises unless the two
series are identically labelled. -/
def coverage (y_true y_pred : Series) : Except MErr (Option ℚ) :=
  if y_true.idx = y_pred.idx then
    .ok (npMean ((y_true.vals.zip y_pred.vals).map (fun x => if x.1 ≤ x.2 then (1 : ℚ) else 0)))
  else .error .ShapeMismatch

/-- np.mean(y_pred). -/
def requirement (y_true y_pred : Series) : Option ℚ :=
  npMean y_pred.vals

/-- np.mean((y_true - y_pred)[y_true > y_pred]); the comparison raises on
misaligned labels, and an empty selection yields NaN. -/
def exceeding (y_true y_pred : Series) : Except MErr (Option ℚ) :=
  if y_true.idx = y_pred.idx then
    .ok (npMean (((y_true.vals.zip y_pred.vals).filter (fun x => decide (x.2 < x.1))).map
      (fun x => x.1 - x.2)))
  else .error .ShapeMismatch

/-- np.mean(np.abs(y_true - y_pred)). -/
def closeness (y_true y_pred : Series) : Option ℚ :=
  npMeanO ((seriesSub y_true y_pred).map (Option.map (fun d => |d|)))

/-- np.max(y_true - y_pred). -/
def max_exceeding (y_true y_pred : Series) : Option ℚ :=
  npMaxO (seriesSub y_true y_pred)

/-- np.mean(np.abs(diff of y_pred values) / (diff of y_pred index in ns / 3.6e12));
on fewer than two points the diffs are empty and np.mean returns NaN. -/
def reserve_ramp_rate (y_true y_pred : Series) : Option ℚ :=
  npMean (List.zipWith (fun dv dt => dv / dt)
    (List.zipWith (fun b a => |b - a|) y_pred.vals.tail y_pred.vals)
    (List.zipWith (fun b a => ((b - a : ℤ) : ℚ) / (1000000000 * 3600)) y_pred.idx.tail y_pred.idx))

/-- np.mean(np.max([(1 - tau) * (y_pred - y_true), tau * (y_true - y_pred)], axis=0)). -/
def pinball_loss (y_true y_pred : Series) (tau : ℚ) : Option ℚ :=
  npMeanO (List.zipWith (oMap2 max)
    ((seriesSub y_pred y_true).map (Option.map (fun d => (1 - tau) * d)))
    ((seriesSub y_true y_pred).map (Option.map (fun d => tau * d))))

/-
  The aggregators.  A Metric Result Table (pandas DataFrame with rows the
  seven metric names in the fixed list order and columns keyed (tau, fold))
  is an association list from (tau, fold) to the column of seven cells, the
  rows being positional in the order of `metricNames`.  NaN cells are `none`.

  The source mutates `pinball_loss.__defaults__` (module-global state) and
  mutates the caller's dataframe in place via `df[(tau, CV)] = ...`; both
  effects are made explicit by state passing: the aggregator takes the
  incoming pinball default and reports, in `AggResult`, the default after
  the call (`pinballDefault`), the state of the caller's dataframe object
  after the call (`dfArg`) and the returned dataframe (`ret`).  Writing to
  `filename` is I/O and is out of scope, and the `metrics` argument is
  modelled at its default value (the fixed seven-function list).
-/

abbrev Table : Type := List ((ℚ × ℕ) × List (Option ℚ))

/-- Row labels of the result table, in the fixed default `metrics` order. -/
def metricNames : List String :=
  ["coverage", "requirement", "exceeding", "closeness", "max_exceeding",
   "reserve_ramp_rate", "pinball_loss"]

/-- The default `metrics` list; `pinball_loss` reads the (just rebound)
default quantile, so the list is indexed by it. -/
def defaultMetricList (tau : ℚ) : List (Series → Series → Except MErr (Option ℚ)) :=
  [coverage,
   fun a b => .ok (requirement a b),
   exceeding,
   fun a b => .ok (closeness a b),
   fun a b => .ok (max_exceeding a b),
   fun a b => .ok (reserve_ramp_rate a b),
   fun a b => .ok (pinball_loss a b tau)]

/-- The Python loop over a list of computations that can raise: stop at the
first exception. -/
def mapExcept {α β : Type} (f : α → Except MErr β) : List α → Except MErr (List β)
  | [] => .ok []
  | a :: as =>
    match f a with
    | .error e => .error e
    | .ok b => (mapExcept f as).map (fun bs => b :: bs)

/-- One column of the result table: every metric applied to
(y_true, y_pred), in list order, aborting at the first exception. -/
def computeColumn (y_true y_pred : Series) (tau : ℚ) : Except MErr (List (Option ℚ)) :=
  mapExcept (fun m => m y_true y_pred) (defaultMetricList tau)

/-- Column assignment df[(tau, CV)] = column: overwrite the column if the
key exists, append it otherwise. -/
def setCol (t : Table) (k : ℚ × ℕ) (v : List (Option ℚ)) : Table :=
  if k ∈ t.map Prod.fst then
    t.map (fun c => if c.1 = k then (k, v) else c)
  else t ++ [(k, v)]

/-- CV_folds = np.arange(10). -/
def CV_folds : List ℕ := List.range 10

/-- The fold loop of compute_metrics_for_specified_tau: for each CV fold in
order, select pred_trainval[(tau, CV)] (KeyError, i.e. MissingFoldData, when
absent) and write the computed column into the dataframe. -/
def addColumns (output_trainval : Series) (pred_trainval : ℚ × ℕ → Option Series)
    (tau : ℚ) (df : Table) : List ℕ → Except MErr Table
  | [] => .ok df
  | CV :: rest =>
    match pred_trainval (tau, CV) with
    | none => .error .MissingFoldData
    | some y_pred =>
      match computeColumn output_trainval y_pred tau with
      | .error e => .error e
      | .ok col => addColumns output_trainval pred_trainval tau (setCol df (tau, CV) col) rest

structure AggResult where
  /-- pinball_loss.__defaults__ after the call. -/
  pinballDefault : ℚ
  /-- The caller's dataframe object after the call (mutated in place). -/
  dfArg : Table
  /-- The returned dataframe (the source re-derives it from the mutated one
  by the multi-level column reformat, which renames but keeps every column
  key and value; in this embedding the keys are already (tau, fold) pairs,
  so the reformat is the identity). -/
  ret : Table
deriving DecidableEq

/-- compute_metrics_for_specified_tau: sets the pinball default to tau,
starts from the given dataframe (a fresh one when `df = none`; the fresh
frame only installs the metric-name row labels, which are positional here)
and adds one column per fold in CV_folds. -/
def compute_metrics_for_specified_tau (output_trainval : Series)
    (pred_trainval : ℚ × ℕ → Option Series) (df : Option Table) (tau : ℚ)
    (pinballDefault0 : ℚ) : Except MErr AggResult :=
  (addColumns output_trainval pred_trainval tau (df.getD []) CV_folds).map
    (fun t => ⟨tau, t, t⟩)

/-- The tau loop of compute_metrics_for_all_taus, threading the growing
dataframe and the pinball default through the single-tau calls.  The first
call receives `df = None`, which behaves as the empty table here (the fresh
frame only installs the positional row labels), so the accumulator starts
empty. -/
def aggLoop (output_trainval : Series) (pred_trainval : ℚ × ℕ → Option Series) :
    List ℚ → Table → ℚ → Except MErr (Table × ℚ)
  | [], df, s => .ok (df, s)
  | tau :: rest, df, s =>
    match compute_metrics_for_specified_tau output_trainval pred_trainval (some df) tau s with
    | .error e => .error e
    | .ok A => aggLoop output_trainval pred_trainval rest A.ret A.pinballDefault

/-- Lookup in an association list by key (pandas column / row selection). -/
def alookup {α β : Type} [DecidableEq α] (l : List (α × β)) (a : α) : Option β :=
  (l.find? (fun p => decide (p.1 = a))).map Prod.snd

/-- One cell list of df.astype(float).mean(axis=1, level=0): the per-fold cells
of one row restricted to the columns whose first key equals tau. -/
def tauColumnCells (t : Table) (tau : ℚ) (i : ℕ) : List (Option ℚ) :=
  (t.filter (fun c => decide (c.1.1 = tau))).map (fun c => c.2.getD i none)

/-- pandas mean with the default skipna=True: NaN cells are dropped, an
all-NaN group is NaN. -/
def pandasRowMean (cells : List (Option ℚ)) : Option ℚ :=
  npMean (cells.filterMap id)

/-- df.astype(float).mean(axis=1, level=0): collapse the fold level, keying
the result by the distinct tau values of the column keys. -/
def avgLevel0 (t : Table) : List (ℚ × List (Option ℚ)) :=
  (sortedUnique (t.map (fun c => c.1.1))).map (fun tau =>
    (tau, (List.range metricNames.length).map (fun i => pandasRowMean (tauColumnCells t tau i))))

/-- The two shapes compute_metrics_for_all_taus can return. -/
inductive MultiOut where
  | byFold : Table → MultiOut
  | avged : List (ℚ × List (Option ℚ)) → MultiOut
deriving DecidableEq

/-- compute_metrics_for_all_taus: one single-tau call per distinct tau of the
prediction table's columns (pandas MultiIndex `levels[0]` is the sorted set of
distinct first components), then optionally collapse the fold level. -/
def compute_metrics_for_all_taus (output_trainval : Series) (columns : List (ℚ × ℕ))
    (pred_trainval : ℚ × ℕ → Option Series) (avg_across_folds : Bool)
    (pinballDefault0 : ℚ) : Except MErr MultiOut :=
  (aggLoop output_trainval pred_trainval (sortedUnique (columns.map Prod.fst)) []
      pinballDefault0).map
    (fun r => if avg_across_folds then .avged (avgLevel0 r.1) else .byFold r.1)

/-
  The Crossing Detector.
-/

/-- sum(p1 > p2) over two identically-labelled series: the number of
positions where the first strictly exceeds the second. -/
def countCrossings (p1 p2 : List ℚ) : ℕ :=
  (p1.zip p2).countP (fun x => decide (x.2 < x.1))

/-- The valid (lower, upper) pairs drawn from tau_arr, in loop order. -/
def tauPairs (tau_arr : List ℚ) : List (ℚ × ℚ) :=
  (tau_arr.map (fun t1 => (tau_arr.filter (fun t2 => decide (t1 < t2))).map
    (fun t2 => (t1, t2)))).flatten

/-- The inner dictionary for one CV fold: one entry per valid pair, holding
sum(pred_trainval[t1, CV] > pred_trainval[t2, CV]).  A missing column is a
KeyError and a comparison of differently-labelled series a ValueError. -/
def crossRow (pred_trainval : ℚ × ℕ → Option Series) (tau_arr : List ℚ)
    (CV : ℕ) : Except MErr (List ((ℚ × ℚ) × ℕ)) :=
  mapExcept (fun p =>
    match pred_trainval (p.1, CV), pred_trainval (p.2, CV) with
    | some s1, some s2 =>
      if s1.idx = s2.idx then .ok (p, countCrossings s1.vals s2.vals)
      else .error .ShapeMismatch
    | _, _ => .error .MissingFoldData)
    (tauPairs tau_arr)

/-- n_crossings: tau_arr and CV_arr are the sorted distinct level values of
the prediction table's columns; one row of pair counts per CV fold. -/
def n_crossings (columns : List (ℚ × ℕ)) (pred_trainval : ℚ × ℕ → Option Series) :
    Except MErr (List (ℕ × List ((ℚ × ℚ) × ℕ))) :=
  mapExcept (fun CV =>
      (crossRow pred_trainval (sortedUnique (columns.map Prod.fst)) CV).map
        (fun row => (CV, row)))
    (sortedUnique (columns.map Prod.snd))

/-- The crossing table's entry for fold CV and pair (t1, t2). -/
def crossEntry (res : List (ℕ × List ((ℚ × ℚ) × ℕ))) (CV : ℕ) (t1 t2 : ℚ) : Option ℕ :=
  (alookup res CV).bind (fun row => alookup row (t1, t2))


/-
  Helper lemmas.
-/

/-- Proof-side spine of the fold loop: the columns computed for tau, in fold
order, independent of the accumulating dataframe. -/
def computeColumns (output_trainval : Series) (pred_trainval : ℚ × ℕ → Option Series)
    (tau : ℚ) : List ℕ → Except MErr Table
  | [] => .ok []
  | CV :: rest =>
    match pred_trainval (tau, CV) with
    | none => .error .MissingFoldData
    | some y_pred =>
      match computeColumn output_trainval y_pred tau with
      | .error e => .error e
      | .ok col =>
        (computeColumns output_trainval pred_trainval tau rest).map
          (fun cs => ((tau, CV), col) :: cs)

lemma addColumns_eq_computeColumns (output_trainval : Series)
    (pred_trainval : ℚ × ℕ → Option Series) (tau : ℚ) (folds : List ℕ) (df : Table) :
    addColumns output_trainval pred_trainval tau df folds =
      (computeColumns output_trainval pred_trainval tau folds).map
        (fun cols => cols.foldl (fun d c => setCol d c.1 c.2) df) := by
  induction folds generalizing df with
  | nil => rfl
  | cons CV rest ih =>
    simp only [addColumns, computeColumns]
    split
    · simp [Except.map]
    · split
      · simp [Except.map]
      · rw [ih]
        cases hr : computeColumns output_trainval pred_trainval tau rest with
        | error e => simp [hr, Except.map]
        | ok cs => simp [hr, Except.map]

lemma computeColumns_keys (output_trainval : Series)
    (pred_trainval : ℚ × ℕ → Option Series) (tau : ℚ) (folds : List ℕ) (cols : Table)
    (h : computeColumns output_trainval pred_trainval tau folds = .ok cols) :
    cols.map Prod.fst = folds.map (fun CV => (tau, CV)) := by
  induction folds generalizing cols with
  | nil =>
    simp only [computeColumns] at h
    cases h
    rfl
  | cons CV rest ih =>
    simp only [computeColumns] at h
    split at h
    · simp at h
    · split at h
      · simp at h
      · cases hr : computeColumns output_trainval pred_trainval tau rest with
        | error e => rw [hr] at h; simp [Except.map] at h
        | ok cs =>
          rw [hr] at h
          simp only [Except.map] at h
          cases h
          simp [ih cs hr]

lemma computeColumn_aligned (y_true y_pred : Series) (tau : ℚ)
    (h : y_true.idx = y_pred.idx) :
    computeColumn y_true y_pred tau =
      .ok [npMean ((y_true.vals.zip y_pred.vals).map (fun x => if x.1 ≤ x.2 then (1 : ℚ) else 0)),
           requirement y_true y_pred,
           npMean (((y_true.vals.zip y_pred.vals).filter (fun x => decide (x.2 < x.1))).map
             (fun x => x.1 - x.2)),
           closeness y_true y_pred,
           max_exceeding y_true y_pred,
           reserve_ramp_rate y_true y_pred,
           pinball_loss y_true y_pred tau] := by
  simp [computeColumn, defaultMetricList, mapExcept, coverage, exceeding, h, Except.map]

lemma computeColumn_misaligned (y_true y_pred : Series) (tau : ℚ)
    (h : ¬ y_true.idx = y_pred.idx) :
    computeColumn y_true y_pred tau = .error .ShapeMismatch := by
  simp [computeColumn, defaultMetricList, mapExcept, coverage, h]

lemma computeColumns_ok (output_trainval : Series) (pred_trainval : ℚ × ℕ → Option Series)
    (tau : ℚ) (folds : List ℕ)
    (h : ∀ CV ∈ folds, ∃ s, pred_trainval (tau, CV) = some s ∧ output_trainval.idx = s.idx) :
    ∃ cols, computeColumns output_trainval pred_trainval tau folds = .ok cols := by
  induction folds with
  | nil => exact ⟨[], rfl⟩
  | cons CV rest ih =>
    obtain ⟨s, hs, hal⟩ := h CV (List.mem_cons_self CV rest)
    obtain ⟨cs, hcs⟩ := ih (fun CV h2 => h CV (List.mem_cons_of_mem _ h2))
    cases hcA : computeColumn output_trainval s tau with
    | error e =>
      rw [computeColumn_aligned output_trainval s tau hal] at hcA
      simp at hcA
    | ok col =>
      exact ⟨((tau, CV), col) :: cs, by simp only [computeColumns, hs, hcA, hcs, Except.map]⟩

lemma computeColumns_missing (output_trainval : Series)
    (pred_trainval : ℚ × ℕ → Option Series) (tau : ℚ) (folds : List ℕ)
    (hal : ∀ CV s, pred_trainval (tau, CV) = some s → s.idx = output_trainval.idx)
    (hm : ∃ CV ∈ folds, pred_trainval (tau, CV) = none) :
    computeColumns output_trainval pred_trainval tau folds = .error .MissingFoldData := by
  induction folds with
  | nil => simp at hm
  | cons CV rest ih =>
    cases hp : pred_trainval (tau, CV) with
    | none => simp only [computeColumns, hp]
    | some s =>
      have hrest : ∃ CV2 ∈ rest, pred_trainval (tau, CV2) = none := by
        obtain ⟨CV2, hmem, hnone⟩ := hm
        rcases List.mem_cons.mp hmem with rfl | h2
        · rw [hp] at hnone; exact absurd hnone (by simp)
        · exact ⟨CV2, h2, hnone⟩
      simp only [computeColumns, hp,
        computeColumn_aligned output_trainval s tau (hal CV s hp).symm, ih hrest, Except.map]

lemma computeColumns_misaligned (output_trainval : Series)
    (pred_trainval : ℚ × ℕ → Option Series) (tau : ℚ) (folds : List ℕ)
    (hp : ∀ CV ∈ folds, (pred_trainval (tau, CV)).isSome = true)
    (hm : ∃ CV ∈ folds, ∃ s, pred_trainval (tau, CV) = some s ∧ s.idx ≠ output_trainval.idx) :
    computeColumns output_trainval pred_trainval tau folds = .error .ShapeMismatch := by
  induction folds with
  | nil => simp at hm
  | cons CV rest ih =>
    obtain ⟨s, hs⟩ := Option.isSome_iff_exists.mp (hp CV (List.mem_cons_self CV rest))
    by_cases hb : s.idx = output_trainval.idx
    · have hrest : ∃ CV2 ∈ rest, ∃ s2, pred_trainval (tau, CV2) = some s2 ∧
          s2.idx ≠ output_trainval.idx := by
        obtain ⟨CV2, hmem, s2, hs2, hne⟩ := hm
        rcases List.mem_cons.mp hmem with rfl | h2
        · rw [hs] at hs2
          cases hs2
          exact absurd hb hne
        · exact ⟨CV2, h2, s2, hs2, hne⟩
      simp only [computeColumns, hs,
        computeColumn_aligned output_trainval s tau hb.symm,
        ih (fun CV2 h2 => hp CV2 (List.mem_cons_of_mem _ h2)) hrest, Except.map]
    · simp only [computeColumns, hs,
        computeColumn_misaligned output_trainval s tau (fun hh => hb hh.symm)]

lemma setCol_fresh (t : Table) (k : ℚ × ℕ) (v : List (Option ℚ))
    (h : k ∉ t.map Prod.fst) : setCol t k v = t ++ [(k, v)] := by
  simp [setCol, h]

lemma foldl_setCol_append (cols : Table) : ∀ d : Table,
    (∀ c ∈ cols, c.1 ∉ d.map Prod.fst) → (cols.map Prod.fst).Nodup →
    cols.foldl (fun d c => setCol d c.1 c.2) d = d ++ cols := by
  induction cols with
  | nil => intro d _ _; simp
  | cons c rest ih =>
    intro d hfresh hnodup
    rw [List.foldl_cons, setCol_fresh d c.1 c.2 (hfresh c (List.mem_cons_self c rest)),
      ih (d ++ [(c.1, c.2)]) ?_ ?_]
    · simp
    · intro c2 h2
      simp only [List.map_append, List.mem_append]
      rintro (hin | hin)
      · exact hfresh c2 (List.mem_cons_of_mem _ h2) hin
      · simp only [List.map_cons, List.map_nil, List.mem_singleton] at hin
        simp only [List.map_cons, List.nodup_cons] at hnodup
        exact hnodup.1 (hin ▸ List.mem_map_of_mem Prod.fst h2)
    · simp only [List.map_cons, List.nodup_cons] at hnodup
      exact hnodup.2

lemma alookup_cons {α β : Type} [DecidableEq α] (p : α × β) (l : List (α × β)) (a : α) :
    alookup (p :: l) a = if p.1 = a then some p.2 else alookup l a := by
  by_cases h : p.1 = a
  · simp [alookup, List.find?_cons_of_pos, h]
  · simp [alookup, List.find?_cons_of_neg, h]

lemma alookup_eq_none {α β : Type} [DecidableEq α] (l : List (α × β)) (a : α)
    (h : a ∉ l.map Prod.fst) : alookup l a = none := by
  induction l with
  | nil => rfl
  | cons p rest ih =>
    simp only [List.map_cons, List.mem_cons] at h
    push_neg at h
    rw [alookup_cons, if_neg (fun hh => h.1 hh.symm)]
    exact ih h.2

lemma alookup_isSome {α β : Type} [DecidableEq α] (l : List (α × β)) (a : α)
    (h : a ∈ l.map Prod.fst) : ∃ v, alookup l a = some v := by
  induction l with
  | nil => simp at h
  | cons p rest ih =>
    rw [alookup_cons]
    by_cases he : p.1 = a
    · exact ⟨p.2, by rw [if_pos he]⟩
    · rw [if_neg he]
      simp only [List.map_cons, List.mem_cons] at h
      rcases h with h | h
      · exact absurd h.symm he
      · exact ih h

lemma alookup_append_left {α β : Type} [DecidableEq α] (l1 l2 : List (α × β)) (a : α)
    (v : β) (h : alookup l1 a = some v) : alookup (l1 ++ l2) a = some v := by
  induction l1 with
  | nil => simp [alookup] at h
  | cons p rest ih =>
    rw [List.cons_append, alookup_cons]
    rw [alookup_cons] at h
    by_cases he : p.1 = a
    · rw [if_pos he] at h ⊢; exact h
    · rw [if_neg he] at h ⊢; exact ih h

lemma alookup_append_right {α β : Type} [DecidableEq α] (l1 l2 : List (α × β)) (a : α)
    (h : a ∉ l1.map Prod.fst) : alookup (l1 ++ l2) a = alookup l2 a := by
  induction l1 with
  | nil => rfl
  | cons p rest ih =>
    simp only [List.map_cons, List.mem_cons] at h
    push_neg at h
    rw [List.cons_append, alookup_cons, if_neg (fun hh => h.1 hh.symm)]
    exact ih h.2

lemma alookup_map_self {α β : Type} [DecidableEq α] (l : List α) (h : α → β) (a : α)
    (ha : a ∈ l) : alookup (l.map (fun x => (x, h x))) a = some (h a) := by
  induction l with
  | nil => simp at ha
  | cons b rest ih =>
    rw [List.map_cons, alookup_cons]
    by_cases he : b = a
    · subst he; rw [if_pos rfl]
    · rw [if_neg he]
      rcases List.mem_cons.mp ha with rfl | hmem
      · exact absurd rfl he
      · exact ih hmem

/-- The single-tau aggregator in terms of the proof-side spine. -/
lemma specified_tau_eq (output_trainval : Series) (pred_trainval : ℚ × ℕ → Option Series)
    (df : Option Table) (tau d0 : ℚ) :
    compute_metrics_for_specified_tau output_trainval pred_trainval df tau d0 =
      (computeColumns output_trainval pred_trainval tau CV_folds).map
        (fun cols =>
          ⟨tau, cols.foldl (fun d c => setCol d c.1 c.2) (df.getD []),
            cols.foldl (fun d c => setCol d c.1 c.2) (df.getD [])⟩) := by
  rw [compute_metrics_for_specified_tau,
    addColumns_eq_computeColumns output_trainval pred_trainval tau CV_folds (df.getD [])]
  cases computeColumns output_trainval pred_trainval tau CV_folds with
  | error e => rfl
  | ok cols => rfl

/-- Success of the single-tau aggregator when every fold is present and
aligned with the observed series. -/
lemma specified_tau_ok (output_trainval : Series) (pred_trainval : ℚ × ℕ → Option Series)
    (df : Option Table) (tau d0 : ℚ)
    (h : ∀ CV ∈ CV_folds, ∃ s, pred_trainval (tau, CV) = some s ∧ output_trainval.idx = s.idx) :
    ∃ A, compute_metrics_for_specified_tau output_trainval pred_trainval df tau d0 = .ok A := by
  obtain ⟨cols, hcols⟩ := computeColumns_ok output_trainval pred_trainval tau CV_folds h
  exact ⟨_, by rw [specified_tau_eq, hcols]; rfl⟩

/-
  The claims.
-/

/-- C4: on observed = [10,10,10], predicted = [12,12,12] (aligned on the same
index) the metric functions return coverage = 1, closeness = 2,
requirement = 12, exceeding = NaN (`none`) and max_exceeding = -2. -/
theorem C4_example_metrics :
    coverage ⟨[0, 1, 2], [10, 10, 10]⟩ ⟨[0, 1, 2], [12, 12, 12]⟩ = .ok (some 1) ∧
    closeness ⟨[0, 1, 2], [10, 10, 10]⟩ ⟨[0, 1, 2], [12, 12, 12]⟩ = some 2 ∧
    requirement ⟨[0, 1, 2], [10, 10, 10]⟩ ⟨[0, 1, 2], [12, 12, 12]⟩ = some 12 ∧
    exceeding ⟨[0, 1, 2], [10, 10, 10]⟩ ⟨[0, 1, 2], [12, 12, 12]⟩ = .ok none ∧
    max_exceeding ⟨[0, 1, 2], [10, 10, 10]⟩ ⟨[0, 1, 2], [12, 12, 12]⟩ = some (-2) := by
  refine ⟨?_, ?_, ?_, ?_, ?_⟩
  · simp [coverage, npMean]
    norm_num
  · simp [closeness, seriesSub, npMeanO, npMean]
    norm_num
  · simp [requirement, npMean]
    norm_num
  · simp [exceeding, npMean]
    norm_num
  · simp [max_exceeding, seriesSub, npMaxO, npMean, List.max?]
    norm_num

/-- C8, counterexample: on a one-point predicted series reserve_ramp_rate
returns the value NaN (`none`) instead of failing, and a whole aggregation
whose every fold holds that one-point series succeeds rather than raising
any error: no InsufficientData failure exists in the code. -/
theorem C8_counterexample :
    reserve_ramp_rate ⟨[0], [2]⟩ ⟨[0], [5]⟩ = none ∧
    (compute_metrics_for_specified_tau ⟨[0], [2]⟩ (fun _ => some ⟨[0], [5]⟩) none
      1 1).toOption.isSome = true := by
  constructor
  · rfl
  · obtain ⟨A, hA⟩ := specified_tau_ok ⟨[0], [2]⟩ (fun _ => some ⟨[0], [5]⟩) none 1 1
      (fun CV _ => ⟨⟨[0], [5]⟩, rfl, rfl⟩)
    rw [hA]
    rfl

/-- C8, amended: on a predicted series of fewer than 2 points,
reserve_ramp_rate returns NaN (`none`, the numpy mean of an empty array)
rather than failing with an InsufficientData error: the metric functions
raise no error for short inputs. -/
theorem C8_ramp_rate_nan (y_true y_pred : Series) (h : y_pred.vals.length < 2) :
    reserve_ramp_rate y_true y_pred = none := by
  rcases hv : y_pred.vals with _ | ⟨a, rest⟩
  · simp [reserve_ramp_rate, hv, npMean]
  · rcases rest with _ | ⟨b, l⟩
    · simp [reserve_ramp_rate, hv, npMean]
    · rw [hv] at h
      simp at h
      omega

/-- C8, witness for the amended theorem at a concrete one-point input. -/
theorem C8_witness :
    (Series.mk [5] [7]).vals.length < 2 ∧
    reserve_ramp_rate ⟨[5], [2]⟩ ⟨[5], [7]⟩ = none :=
  ⟨by decide, C8_ramp_rate_nan ⟨[5], [2]⟩ ⟨[5], [7]⟩ (by decide)⟩

/-- C1, counterexample: calling the aggregator with tau = 1/2 while the
pinball default is 39/40 leaves the pinball default equal to 1/2, not 39/40,
and pinball_loss behaves differently under the two defaults on a concrete
series: the global default state is changed by the call. -/
theorem C1_counterexample :
    (compute_metrics_for_specified_tau ⟨[0], [2]⟩ (fun _ => some ⟨[0], [1]⟩) none
      (1/2) (39/40)).map AggResult.pinballDefault = .ok (1/2) ∧
    ((1 : ℚ)/2 ≠ 39/40) ∧
    pinball_loss ⟨[0], [2]⟩ ⟨[0], [1]⟩ (1/2) ≠ pinball_loss ⟨[0], [2]⟩ ⟨[0], [1]⟩ (39/40) := by
  refine ⟨?_, by norm_num, ?_⟩
  · obtain ⟨A, hA⟩ := specified_tau_ok ⟨[0], [2]⟩ (fun _ => some ⟨[0], [1]⟩) none (1/2) (39/40)
      (fun CV _ => ⟨⟨[0], [1]⟩, rfl, rfl⟩)
    rw [hA]
    rw [specified_tau_eq] at hA
    cases hc : computeColumns ⟨[0], [2]⟩ (fun _ => some ⟨[0], [1]⟩) (1/2) CV_folds with
    | error e => rw [hc] at hA; simp [Except.map] at hA
    | ok cols =>
      rw [hc] at hA
      simp only [Except.map] at hA
      cases hA
      rfl
  · simp [pinball_loss, seriesSub, npMeanO, npMean, oMap2]
    norm_num

/-- C1, amended: the aggregator rebinds the module-global pinball default to
its own tau: after any successful call the pinball_loss default equals the
call's tau, whatever the default was before (the prior default is not
restored, so a later call of pinball_loss without an explicit tau uses the
aggregator's tau). -/
theorem C1_pinball_default_rebound (output_trainval : Series)
    (pred_trainval : ℚ × ℕ → Option Series) (df : Option Table) (tau d0 : ℚ)
    (A : AggResult)
    (h : compute_metrics_for_specified_tau output_trainval pred_trainval df tau d0 = .ok A) :
    A.pinballDefault = tau := by
  rw [specified_tau_eq] at h
  cases hc : computeColumns output_trainval pred_trainval tau CV_folds with
  | error e => rw [hc] at h; simp [Except.map] at h
  | ok cols =>
    rw [hc] at h
    simp only [Except.map] at h
    cases h
    rfl

/-- C1, witness for the amended theorem at a concrete input. -/
theorem C1_witness :
    ∃ A, compute_metrics_for_specified_tau ⟨[0], [2]⟩ (fun _ => some ⟨[0], [1]⟩) none
      (3/4) (39/40) = .ok A ∧ A.pinballDefault = 3/4 := by
  obtain ⟨A, hA⟩ := specified_tau_ok ⟨[0], [2]⟩ (fun _ => some ⟨[0], [1]⟩) none (3/4) (39/40)
    (fun CV _ => ⟨⟨[0], [1]⟩, rfl, rfl⟩)
  exact ⟨A, hA, C1_pinball_default_rebound ⟨[0], [2]⟩ (fun _ => some ⟨[0], [1]⟩) none
    (3/4) (39/40) A hA⟩

/-- C5: the single-tau aggregator fails with MissingFoldData when the
prediction table lacks an entry for (tau, CV) for some fold CV in the
expected range 0..9 (the present folds being aligned), and fails with
ShapeMismatch when every fold is present but some selected series' index
does not align with the observed series; in both cases the error is the
call's immediate result. -/
theorem C5_error_propagation (output_trainval : Series)
    (pred_trainval : ℚ × ℕ → Option Series) (df : Option Table) (tau d0 : ℚ) :
    ((∀ CV s, pred_trainval (tau, CV) = some s → s.idx = output_trainval.idx) →
      (∃ CV ∈ CV_folds, pred_trainval (tau, CV) = none) →
      compute_metrics_for_specified_tau output_trainval pred_trainval df tau d0 =
        .error .MissingFoldData) ∧
    ((∀ CV ∈ CV_folds, (pred_trainval (tau, CV)).isSome = true) →
      (∃ CV ∈ CV_folds, ∃ s, pred_trainval (tau, CV) = some s ∧ s.idx ≠ output_trainval.idx) →
      compute_metrics_for_specified_tau output_trainval pred_trainval df tau d0 =
        .error .ShapeMismatch) := by
  constructor
  · intro hal hm
    rw [specified_tau_eq,
      computeColumns_missing output_trainval pred_trainval tau CV_folds hal hm]
    rfl
  · intro hp hm
    rw [specified_tau_eq,
      computeColumns_misaligned output_trainval pred_trainval tau CV_folds hp hm]
    rfl

/-- A prediction table missing fold 3 (all present folds aligned). -/
def predC5m : ℚ × ℕ → Option Series :=
  fun c => if c.2 = 3 then none else some ⟨[0], [1]⟩

/-- A prediction table with every fold present but fold 3 misaligned. -/
def predC5s : ℚ × ℕ → Option Series :=
  fun c => some (if c.2 = 3 then ⟨[1], [1]⟩ else ⟨[0], [1]⟩)

/-- C5, witness: both failure modes at concrete inputs. -/
theorem C5_witness :
    compute_metrics_for_specified_tau ⟨[0], [2]⟩ predC5m none 1 1 =
      .error .MissingFoldData ∧
    compute_metrics_for_specified_tau ⟨[0], [2]⟩ predC5s none 1 1 =
      .error .ShapeMismatch := by
  constructor
  · refine (C5_error_propagation ⟨[0], [2]⟩ predC5m none 1 1).1 ?_
      ⟨3, by decide, rfl⟩
    intro CV s h
    by_cases h3 : CV = 3
    · simp [predC5m, h3] at h
    · simp only [predC5m, if_neg h3, Option.some.injEq] at h
      rw [← h]
  · refine (C5_error_propagation ⟨[0], [2]⟩ predC5s none 1 1).2
      (fun CV _ => rfl) ⟨3, by decide, ⟨[1], [1]⟩, rfl, by decide⟩

/-- Decomposition of a successful single-tau call whose ten new keys are
fresh for the incoming table: the caller's dataframe and the returned one
are the incoming table with the ten freshly computed columns appended. -/
lemma agg_ok_decomp (output_trainval : Series) (pred_trainval : ℚ × ℕ → Option Series)
    (df : Option Table) (tau s0 : ℚ) (A : AggResult)
    (hfresh : ∀ CV, (tau, CV) ∉ (df.getD []).map Prod.fst)
    (h : compute_metrics_for_specified_tau output_trainval pred_trainval df tau s0 = .ok A) :
    ∃ cols : Table,
      computeColumns output_trainval pred_trainval tau CV_folds = .ok cols ∧
      cols.map Prod.fst = CV_folds.map (fun CV => (tau, CV)) ∧
      A.dfArg = df.getD [] ++ cols ∧ A.ret = df.getD [] ++ cols := by
  rw [specified_tau_eq] at h
  cases hc : computeColumns output_trainval pred_trainval tau CV_folds with
  | error e => rw [hc] at h; simp [Except.map] at h
  | ok cols =>
    rw [hc] at h
    simp only [Except.map] at h
    have hkeys := computeColumns_keys output_trainval pred_trainval tau CV_folds cols hc
    have happ : cols.foldl (fun d c => setCol d c.1 c.2) (df.getD []) = df.getD [] ++ cols := by
      refine foldl_setCol_append cols (df.getD []) ?_ ?_
      · intro c hcmem
        have : c.1 ∈ cols.map Prod.fst := List.mem_map_of_mem Prod.fst hcmem
        rw [hkeys] at this
        obtain ⟨CV, _, hCV⟩ := List.mem_map.mp this
        rw [← hCV]
        exact hfresh CV
      · rw [hkeys]
        exact List.Nodup.map (fun a b hab => (Prod.mk.injEq tau a tau b ▸ hab :
          tau = tau ∧ a = b).2) (List.nodup_range 10)
    cases h
    exact ⟨cols, rfl, hkeys, happ, happ⟩

/-- C9, counterexample: passing an existing one-column table into a
successful aggregation leaves the caller's table object with eleven
columns, not the one column it held before the call. -/
theorem C9_counterexample :
    ∃ A, compute_metrics_for_specified_tau ⟨[0], [2]⟩ (fun _ => some ⟨[0], [1]⟩)
        (some [((3, 5), [])]) 2 1 = .ok A ∧
      A.dfArg.length ≠ ([((3, 5), [])] : Table).length := by
  obtain ⟨A, hA⟩ := specified_tau_ok ⟨[0], [2]⟩ (fun _ => some ⟨[0], [1]⟩)
    (some [((3, 5), [])]) 2 1 (fun CV _ => ⟨⟨[0], [1]⟩, rfl, rfl⟩)
  have hfresh : ∀ CV : ℕ, ((2 : ℚ), CV) ∉
      ((some ([((3, 5), [])] : Table)).getD []).map Prod.fst := by
    intro CV
    simp only [Option.getD_some, List.map_cons, List.map_nil, List.mem_singleton,
      Prod.mk.injEq, not_and]
    intro h2
    norm_num at h2
  obtain ⟨cols, _, hkeys, hdf, _⟩ := agg_ok_decomp ⟨[0], [2]⟩ (fun _ => some ⟨[0], [1]⟩)
    (some [((3, 5), [])]) 2 1 A hfresh hA
  refine ⟨A, hA, ?_⟩
  rw [hdf]
  have hlen : cols.length = 10 := by
    have := congrArg List.length hkeys
    simpa using this
  simp [hlen]

/-- C9, amended: a successful call that is passed an existing table with a
fresh tau does return an extended table, but it also mutates the caller's
table object in place: afterwards that object holds its previous columns
(each with its previous value) followed by the ten new (tau, fold) columns,
not exactly the columns it held before. -/
theorem C9_extends_in_place (output_trainval : Series)
    (pred_trainval : ℚ × ℕ → Option Series) (d0 : Table) (tau s0 : ℚ) (A : AggResult)
    (hfresh : ∀ CV, (tau, CV) ∉ d0.map Prod.fst)
    (h : compute_metrics_for_specified_tau output_trainval pred_trainval (some d0) tau s0 =
      .ok A) :
    (∃ cols : Table, cols.map Prod.fst = CV_folds.map (fun CV => (tau, CV)) ∧
      A.dfArg = d0 ++ cols) ∧
    (∀ k, k ∈ d0.map Prod.fst → alookup A.dfArg k = alookup d0 k) := by
  obtain ⟨cols, _, hkeys, hdf, _⟩ := agg_ok_decomp output_trainval pred_trainval
    (some d0) tau s0 A (by simpa using hfresh) h
  simp only [Option.getD_some] at hdf
  refine ⟨⟨cols, hkeys, hdf⟩, ?_⟩
  intro k hk
  obtain ⟨v, hv⟩ := alookup_isSome d0 k hk
  rw [hdf, alookup_append_left d0 cols k v hv, hv]

/-- C9, witness for the amended theorem at a concrete input. -/
theorem C9_witness :
    ∃ A, compute_metrics_for_specified_tau ⟨[0], [2]⟩ (fun _ => some ⟨[0], [1]⟩)
        (some [((7, 4), [some 1])]) 5 1 = .ok A ∧
      ((∃ cols : Table, cols.map Prod.fst = CV_folds.map (fun CV => ((5 : ℚ), CV)) ∧
        A.dfArg = [((7, 4), [some 1])] ++ cols) ∧
      (∀ k, k ∈ ([((7, 4), [some 1])] : Table).map Prod.fst →
        alookup A.dfArg k = alookup ([((7, 4), [some 1])] : Table) k)) := by
  obtain ⟨A, hA⟩ := specified_tau_ok ⟨[0], [2]⟩ (fun _ => some ⟨[0], [1]⟩)
    (some [((7, 4), [some 1])]) 5 1 (fun CV _ => ⟨⟨[0], [1]⟩, rfl, rfl⟩)
  refine ⟨A, hA, C9_extends_in_place ⟨[0], [2]⟩ (fun _ => some ⟨[0], [1]⟩)
    [((7, 4), [some 1])] 5 1 A ?_ hA⟩
  intro CV
  simp only [List.map_cons, List.map_nil, List.mem_singleton, Prod.mk.injEq, not_and]
  intro h2
  norm_num at h2

lemma keys_fst {tau : ℚ} {cols : Table} (k : ℚ × ℕ)
    (hkeys : cols.map Prod.fst = CV_folds.map (fun CV => (tau, CV)))
    (hk : k ∈ cols.map Prod.fst) : k.1 = tau := by
  rw [hkeys] at hk
  obtain ⟨CV, _, hCV⟩ := List.mem_map.mp hk
  rw [← hCV]

/-- C7: with two distinct quantile levels, aggregating t1 then extending
with t2 yields a table whose every cell value agrees with aggregating t2
then t1 (column order aside), and each extension leaves every previously
computed column's value unchanged in the result. -/
theorem C7_order_independent (output_trainval : Series)
    (pred_trainval : ℚ × ℕ → Option Series) (t1 t2 s0 s1 s2 s3 : ℚ) (hne : t1 ≠ t2)
    (A1 A2 B1 B2 : AggResult)
    (h1 : compute_metrics_for_specified_tau output_trainval pred_trainval none t1 s0 = .ok A1)
    (h2 : compute_metrics_for_specified_tau output_trainval pred_trainval (some A1.ret) t2 s1 =
      .ok A2)
    (h3 : compute_metrics_for_specified_tau output_trainval pred_trainval none t2 s2 = .ok B1)
    (h4 : compute_metrics_for_specified_tau output_trainval pred_trainval (some B1.ret) t1 s3 =
      .ok B2) :
    (∀ k, alookup A2.ret k = alookup B2.ret k) ∧
    (∀ k, k ∈ A1.ret.map Prod.fst → alookup A2.ret k = alookup A1.ret k) ∧
    (∀ k, k ∈ B1.ret.map Prod.fst → alookup B2.ret k = alookup B1.ret k) := by
  obtain ⟨cols1, hc1, hk1, _, hr1⟩ := agg_ok_decomp output_trainval pred_trainval none t1 s0 A1
    (by simp) h1
  simp only [Option.getD_none, List.nil_append] at hr1
  have hf2 : ∀ CV : ℕ, (t2, CV) ∉ ((some A1.ret).getD []).map Prod.fst := by
    intro CV
    simp only [Option.getD_some]
    rw [hr1]
    intro hmem
    exact hne ((keys_fst (t2, CV) hk1 hmem).symm : t1 = t2)
  obtain ⟨cols2, hc2, hk2, _, hr2⟩ := agg_ok_decomp output_trainval pred_trainval
    (some A1.ret) t2 s1 A2 hf2 h2
  obtain ⟨cols2b, hc2b, hk2b, _, hr3⟩ := agg_ok_decomp output_trainval pred_trainval none t2
    s2 B1 (by simp) h3
  simp only [Option.getD_none, List.nil_append] at hr3
  have hf4 : ∀ CV : ℕ, (t1, CV) ∉ ((some B1.ret).getD []).map Prod.fst := by
    intro CV
    simp only [Option.getD_some]
    rw [hr3]
    intro hmem
    exact hne (keys_fst (t1, CV) hk2b hmem)
  obtain ⟨cols1b, hc1b, hk1b, _, hr4⟩ := agg_ok_decomp output_trainval pred_trainval
    (some B1.ret) t1 s3 B2 hf4 h4
  rw [hc1] at hc1b
  cases hc1b
  rw [hc2] at hc2b
  cases hc2b
  simp only [Option.getD_some] at hr2 hr4
  rw [hr1] at hr2
  rw [hr3] at hr4
  have hdisj : ∀ k : ℚ × ℕ, k ∈ cols1.map Prod.fst → k ∈ cols2.map Prod.fst → False := by
    intro k ha hb
    exact hne ((keys_fst k hk1 ha).symm.trans (keys_fst k hk2 hb))
  refine ⟨?_, ?_, ?_⟩
  · intro k
    rw [hr2, hr4]
    by_cases hm1 : k ∈ cols1.map Prod.fst
    · obtain ⟨v, hv⟩ := alookup_isSome cols1 k hm1
      rw [alookup_append_left cols1 cols2 k v hv,
        alookup_append_right cols2 cols1 k (fun hm2 => absurd (hdisj k hm1 hm2) not_false), hv]
    · rw [alookup_append_right cols1 cols2 k hm1]
      by_cases hm2 : k ∈ cols2.map Prod.fst
      · obtain ⟨v, hv⟩ := alookup_isSome cols2 k hm2
        rw [alookup_append_left cols2 cols1 k v hv, hv]
      · rw [alookup_append_right cols2 cols1 k hm2, alookup_eq_none cols1 k hm1,
          alookup_eq_none cols2 k hm2]
  · intro k hk
    rw [hr1] at hk
    obtain ⟨v, hv⟩ := alookup_isSome cols1 k hk
    rw [hr2, hr1, alookup_append_left cols1 cols2 k v hv, hv]
  · intro k hk
    rw [hr3] at hk
    obtain ⟨v, hv⟩ := alookup_isSome cols2 k hk
    rw [hr4, hr3, alookup_append_left cols2 cols1 k v hv, hv]

/-- C7, witness: the two aggregation orders agree at a concrete input. -/
theorem C7_witness :
    ∃ A1 A2 B1 B2 : AggResult,
      compute_metrics_for_specified_tau ⟨[0], [2]⟩ (fun _ => some ⟨[0], [1]⟩) none 1 0 =
        .ok A1 ∧
      compute_metrics_for_specified_tau ⟨[0], [2]⟩ (fun _ => some ⟨[0], [1]⟩) (some A1.ret) 2 0 =
        .ok A2 ∧
      compute_metrics_for_specified_tau ⟨[0], [2]⟩ (fun _ => some ⟨[0], [1]⟩) none 2 0 =
        .ok B1 ∧
      compute_metrics_for_specified_tau ⟨[0], [2]⟩ (fun _ => some ⟨[0], [1]⟩) (some B1.ret) 1 0 =
        .ok B2 ∧
      (∀ k, alookup A2.ret k = alookup B2.ret k) := by
  obtain ⟨A1, h1⟩ := specified_tau_ok ⟨[0], [2]⟩ (fun _ => some ⟨[0], [1]⟩) none 1 0
    (fun CV _ => ⟨⟨[0], [1]⟩, rfl, rfl⟩)
  obtain ⟨A2, h2⟩ := specified_tau_ok ⟨[0], [2]⟩ (fun _ => some ⟨[0], [1]⟩) (some A1.ret) 2 0
    (fun CV _ => ⟨⟨[0], [1]⟩, rfl, rfl⟩)
  obtain ⟨B1, h3⟩ := specified_tau_ok ⟨[0], [2]⟩ (fun _ => some ⟨[0], [1]⟩) none 2 0
    (fun CV _ => ⟨⟨[0], [1]⟩, rfl, rfl⟩)
  obtain ⟨B2, h4⟩ := specified_tau_ok ⟨[0], [2]⟩ (fun _ => some ⟨[0], [1]⟩) (some B1.ret) 1 0
    (fun CV _ => ⟨⟨[0], [1]⟩, rfl, rfl⟩)
  exact ⟨A1, A2, B1, B2, h1, h2, h3, h4,
    (C7_order_independent ⟨[0], [2]⟩ (fun _ => some ⟨[0], [1]⟩) 1 2 0 0 0 0 (by norm_num)
      A1 A2 B1 B2 h1 h2 h3 h4).1⟩

lemma seriesSub_aligned (a b : Series) (h : a.idx = b.idx) :
    seriesSub a b = List.zipWith (fun x y => some (x - y)) a.vals b.vals := by
  simp [seriesSub, h]

lemma npMeanO_map_some (l : List ℚ) : npMeanO (l.map some) = npMean l := by
  have h1 : (l.map some).any Option.isNone = false := by
    induction l with
    | nil => rfl
    | cons a as ih => simp [ih]
  have h2 : (l.map some).filterMap id = l := by
    induction l with
    | nil => rfl
    | cons a as ih => simp [ih]
  simp [npMeanO, h1, h2]

lemma zipWith_some_eq_map (g : ℚ → ℚ → ℚ) :
    ∀ (as bs : List ℚ), List.zipWith (fun x y => some (g x y)) as bs =
      (List.zipWith g as bs).map some := by
  intro as
  induction as with
  | nil => intro bs; rfl
  | cons a as2 ih =>
    intro bs
    cases bs with
    | nil => rfl
    | cons b bs2 => simp [ih bs2]

lemma npMeanO_zipWith_some (g : ℚ → ℚ → ℚ) (as bs : List ℚ) :
    npMeanO (List.zipWith (fun x y => some (g x y)) as bs) =
      npMean (List.zipWith g as bs) := by
  rw [zipWith_some_eq_map, npMeanO_map_some]

lemma zip_pinball_comb (tau : ℚ) :
    ∀ (as bs : List ℚ),
      List.zipWith (oMap2 max)
        ((List.zipWith (fun x y => some (x - y)) bs as).map
          (Option.map (fun d => (1 - tau) * d)))
        ((List.zipWith (fun x y => some (x - y)) as bs).map
          (Option.map (fun d => tau * d))) =
      List.zipWith (fun x y => some (max ((1 - tau) * (y - x)) (tau * (x - y)))) as bs := by
  intro as
  induction as with
  | nil => intro bs; cases bs <;> rfl
  | cons a as2 ih =>
    intro bs
    cases bs with
    | nil => rfl
    | cons b bs2 => simp [oMap2, ih bs2]

/-- The pinball loss on identically-indexed series, in closed positional
form. -/
lemma pinball_aligned (y_true y_pred : Series) (tau : ℚ) (h : y_true.idx = y_pred.idx) :
    pinball_loss y_true y_pred tau =
      npMean (List.zipWith (fun x y => max ((1 - tau) * (y - x)) (tau * (x - y)))
        y_true.vals y_pred.vals) := by
  rw [pinball_loss, seriesSub_aligned y_pred y_true h.symm,
    seriesSub_aligned y_true y_pred h, zip_pinball_comb, npMeanO_zipWith_some]

/-- The closeness metric on identically-indexed series, in closed positional
form. -/
lemma closeness_aligned (y_true y_pred : Series) (h : y_true.idx = y_pred.idx) :
    closeness y_true y_pred =
      npMean (List.zipWith (fun x y => |x - y|) y_true.vals y_pred.vals) := by
  rw [closeness, seriesSub_aligned y_true y_pred h]
  have : ∀ (as bs : List ℚ),
      (List.zipWith (fun x y => some (x - y)) as bs).map (Option.map (fun d => |d|)) =
        List.zipWith (fun x y => some |x - y|) as bs := by
    intro as
    induction as with
    | nil => intro bs; rfl
    | cons a as2 ih =>
      intro bs
      cases bs with
      | nil => rfl
      | cons b bs2 => simp [ih bs2]
  rw [this, npMeanO_zipWith_some]

lemma zipWith_ptwise (f g : ℚ → ℚ → ℚ) (h : ∀ x y, f x y = g x y) :
    ∀ (as bs : List ℚ), List.zipWith f as bs = List.zipWith g as bs := by
  intro as
  induction as with
  | nil => intro bs; rfl
  | cons a as2 ih =>
    intro bs
    cases bs with
    | nil => rfl
    | cons b bs2 => simp [h, ih bs2]

lemma zipWith_mul_eq_map (c : ℚ) (g : ℚ → ℚ → ℚ) :
    ∀ (as bs : List ℚ), List.zipWith (fun x y => c * g x y) as bs =
      (List.zipWith g as bs).map (fun z => c * z) := by
  intro as
  induction as with
  | nil => intro bs; rfl
  | cons a as2 ih =>
    intro bs
    cases bs with
    | nil => rfl
    | cons b bs2 => simp [ih bs2]

lemma sum_map_mul (c : ℚ) (l : List ℚ) : (l.map (fun z => c * z)).sum = c * l.sum := by
  induction l with
  | nil => simp
  | cons a as ih => simp [ih, mul_add]

lemma npMean_map_mul (c : ℚ) (l : List ℚ) :
    npMean (l.map (fun z => c * z)) = (npMean l).map (fun v => c * v) := by
  by_cases h : l = []
  · subst h; rfl
  · have h2 : l.map (fun z => c * z) ≠ [] := by simpa using h
    simp [npMean, h, h2, sum_map_mul, mul_div_assoc]

lemma mem_zipWith_imp (f : ℚ → ℚ → ℚ) (c : ℚ) :
    ∀ (as bs : List ℚ), c ∈ List.zipWith f as bs → ∃ a b, c = f a b := by
  intro as
  induction as with
  | nil => intro bs h; simp at h
  | cons a as2 ih =>
    intro bs h
    cases bs with
    | nil => simp at h
    | cons b bs2 =>
      rcases List.mem_cons.mp h with h2 | h2
      · exact ⟨a, b, h2⟩
      · exact ih bs2 h2

/-- C3: on equal-length identically-indexed series of length at least one,
the pinball loss at tau = 1/2 is half the closeness (half the mean absolute
error). -/
theorem C3_pinball_half_closeness (y_true y_pred : Series)
    (hidx : y_true.idx = y_pred.idx)
    (hlen : y_true.vals.length = y_pred.vals.length)
    (hpos : 1 ≤ y_true.vals.length) :
    ∃ c, closeness y_true y_pred = some c ∧
      pinball_loss y_true y_pred (1/2) = some ((1/2) * c) := by
  rw [closeness_aligned y_true y_pred hidx, pinball_aligned y_true y_pred (1/2) hidx]
  have hpt : ∀ x y : ℚ, max ((1 - (1/2 : ℚ)) * (y - x)) ((1/2) * (x - y)) = (1/2) * |x - y| := by
    intro x y
    rcases le_total x y with hxy | hxy
    · rw [abs_of_nonpos (by linarith), max_eq_left (by linarith)]
      ring
    · rw [abs_of_nonneg (by linarith), max_eq_right (by linarith)]
  rw [zipWith_ptwise _ _ hpt y_true.vals y_pred.vals,
    zipWith_mul_eq_map (1/2) (fun x y => |x - y|) y_true.vals y_pred.vals,
    npMean_map_mul]
  have hne : List.zipWith (fun x y => |x - y|) y_true.vals y_pred.vals ≠ [] := by
    have hl : (List.zipWith (fun x y => |x - y|) y_true.vals y_pred.vals).length =
        y_true.vals.length := by
      rw [List.length_zipWith, ← hlen, min_self]
    intro hnil
    rw [hnil] at hl
    simp at hl
    omega
  have hm : npMean (List.zipWith (fun x y => |x - y|) y_true.vals y_pred.vals) =
      some ((List.zipWith (fun x y => |x - y|) y_true.vals y_pred.vals).sum /
        (List.zipWith (fun x y => |x - y|) y_true.vals y_pred.vals).length) := by
    simp [npMean, hne]
  rw [hm]
  exact ⟨_, rfl, rfl⟩

/-- C3, witness at a concrete input. -/
theorem C3_witness :
    ∃ c, closeness ⟨[0, 1], [10, 14]⟩ ⟨[0, 1], [12, 12]⟩ = some c ∧
      pinball_loss ⟨[0, 1], [10, 14]⟩ ⟨[0, 1], [12, 12]⟩ (1/2) = some ((1/2) * c) :=
  C3_pinball_half_closeness ⟨[0, 1], [10, 14]⟩ ⟨[0, 1], [12, 12]⟩ rfl (by decide) (by decide)

/-- C10: on equal-length identically-indexed series of length at least one
and any tau between 0 and 1, the pinball loss is a non-negative number. -/
theorem C10_pinball_nonneg (y_true y_pred : Series) (tau : ℚ)
    (hidx : y_true.idx = y_pred.idx) (hlen : y_true.vals.length = y_pred.vals.length)
    (hpos : 1 ≤ y_true.vals.length) (h0 : 0 ≤ tau) (h1 : tau ≤ 1) :
    ∃ v, pinball_loss y_true y_pred tau = some v ∧ 0 ≤ v := by
  rw [pinball_aligned y_true y_pred tau hidx]
  have hne : List.zipWith (fun x y => max ((1 - tau) * (y - x)) (tau * (x - y)))
      y_true.vals y_pred.vals ≠ [] := by
    have hl : (List.zipWith (fun x y => max ((1 - tau) * (y - x)) (tau * (x - y)))
        y_true.vals y_pred.vals).length = y_true.vals.length := by
      rw [List.length_zipWith, ← hlen, min_self]
    intro hnil
    rw [hnil] at hl
    simp at hl
    omega
  have hm : npMean (List.zipWith (fun x y => max ((1 - tau) * (y - x)) (tau * (x - y)))
      y_true.vals y_pred.vals) =
      some ((List.zipWith (fun x y => max ((1 - tau) * (y - x)) (tau * (x - y)))
        y_true.vals y_pred.vals).sum /
        (List.zipWith (fun x y => max ((1 - tau) * (y - x)) (tau * (x - y)))
          y_true.vals y_pred.vals).length) := by
    simp [npMean, hne]
  refine ⟨_, hm, ?_⟩
  apply div_nonneg
  · apply List.sum_nonneg
    intro x hx
    obtain ⟨a, b, rfl⟩ := mem_zipWith_imp _ x y_true.vals y_pred.vals hx
    rcases le_total a b with hab | hab
    · exact le_trans (mul_nonneg (by linarith) (by linarith)) (le_max_left _ _)
    · exact le_trans (mul_nonneg (by linarith) (by linarith)) (le_max_right _ _)
  · exact Nat.cast_nonneg _

/-- C10, witness at a concrete input. -/
theorem C10_witness :
    ∃ v, pinball_loss ⟨[0], [10]⟩ ⟨[0], [12]⟩ (39/40) = some v ∧ 0 ≤ v :=
  C10_pinball_nonneg ⟨[0], [10]⟩ ⟨[0], [12]⟩ (39/40) rfl (by decide) (by decide)
    (by norm_num) (by norm_num)

lemma mem_insertSorted {α : Type} [LinearOrder α] (a b : α) :
    ∀ l : List α, a ∈ insertSorted b l ↔ a = b ∨ a ∈ l := by
  intro l
  induction l with
  | nil => simp [insertSorted]
  | cons c cs ih =>
    rw [insertSorted]
    by_cases h : b ≤ c
    · simp [h]
    · simp only [if_neg h, List.mem_cons, ih]
      tauto

lemma mem_sortedUnique {α : Type} [LinearOrder α] (a : α) (l : List α) :
    a ∈ sortedUnique l ↔ a ∈ l := by
  have key : ∀ (m : List α) (init : List α),
      a ∈ m.foldr insertSorted init ↔ a ∈ m ∨ a ∈ init := by
    intro m
    induction m with
    | nil => simp
    | cons c cs ih =>
      intro init
      simp only [List.foldr_cons, mem_insertSorted, ih init, List.mem_cons]
      tauto
  rw [sortedUnique, key l.dedup [], List.mem_dedup]
  simp

lemma mem_tauPairs (l : List ℚ) (p : ℚ × ℚ) :
    p ∈ tauPairs l ↔ p.1 ∈ l ∧ p.2 ∈ l ∧ p.1 < p.2 := by
  cases p with
  | mk a b =>
    constructor
    · intro hmem
      rw [tauPairs] at hmem
      obtain ⟨L, hL, hpL⟩ := List.mem_flatten.mp hmem
      obtain ⟨t1, ht1, rfl⟩ := List.mem_map.mp hL
      obtain ⟨t2, ht2, heq⟩ := List.mem_map.mp hpL
      obtain ⟨ht2m, hlt⟩ := List.mem_filter.mp ht2
      injection heq with e1 e2
      subst e1
      subst e2
      exact ⟨ht1, ht2m, by simpa using hlt⟩
    · rintro ⟨ha, hb, hlt⟩
      rw [tauPairs]
      refine List.mem_flatten.mpr
        ⟨(l.filter (fun t2 => decide (a < t2))).map (fun t2 => (a, t2)),
          List.mem_map.mpr ⟨a, ha, rfl⟩, ?_⟩
      exact List.mem_map.mpr ⟨b, List.mem_filter.mpr ⟨hb, by simpa using hlt⟩, rfl⟩

lemma mapExcept_ok {α β : Type} (f : α → Except MErr β) (g : α → β) :
    ∀ l : List α, (∀ a ∈ l, f a = .ok (g a)) → mapExcept f l = .ok (l.map g) := by
  intro l
  induction l with
  | nil => intro _; rfl
  | cons a as ih =>
    intro h
    simp only [mapExcept, h a (List.mem_cons_self a as),
      ih (fun b hb => h b (List.mem_cons_of_mem a hb)), Except.map, List.map_cons]

/-- C2: with a full, per-fold aligned prediction table, the crossing
detector returns, for every fold present and every pair t1 < t2 of distinct
quantile levels present, exactly the number of timestamps where the
(t1, fold) prediction strictly exceeds the (t2, fold) one; it produces no
entry for t1 >= t2; and a pointwise-ordered pair yields the entry 0. -/
theorem C2_n_crossings_correct (columns : List (ℚ × ℕ))
    (pred_trainval : ℚ × ℕ → Option Series) (sel : ℚ → ℕ → Series)
    (hsel : ∀ t CV, t ∈ columns.map Prod.fst → CV ∈ columns.map Prod.snd →
      pred_trainval (t, CV) = some (sel t CV))
    (halign : ∀ t1 t2 CV, t1 ∈ columns.map Prod.fst → t2 ∈ columns.map Prod.fst →
      CV ∈ columns.map Prod.snd → (sel t1 CV).idx = (sel t2 CV).idx) :
    ∃ res, n_crossings columns pred_trainval = .ok res ∧
      (∀ CV, CV ∈ columns.map Prod.snd → ∀ t1 t2, t1 ∈ columns.map Prod.fst →
        t2 ∈ columns.map Prod.fst → t1 < t2 →
        crossEntry res CV t1 t2 =
          some (countCrossings (sel t1 CV).vals (sel t2 CV).vals)) ∧
      (∀ CV row, (CV, row) ∈ res → ∀ p c, (p, c) ∈ row → p.1 < p.2) ∧
      (∀ CV t1 t2, CV ∈ columns.map Prod.snd → t1 ∈ columns.map Prod.fst →
        t2 ∈ columns.map Prod.fst → t1 < t2 →
        List.Forall₂ (· ≤ ·) (sel t1 CV).vals (sel t2 CV).vals →
        crossEntry res CV t1 t2 = some 0) := by
  have hrow : ∀ CV, CV ∈ columns.map Prod.snd →
      crossRow pred_trainval (sortedUnique (columns.map Prod.fst)) CV =
        .ok ((tauPairs (sortedUnique (columns.map Prod.fst))).map
          (fun p => (p, countCrossings (sel p.1 CV).vals (sel p.2 CV).vals))) := by
    intro CV hCV
    apply mapExcept_ok
    intro p hp
    obtain ⟨h1, h2, hlt⟩ := (mem_tauPairs _ p).mp hp
    rw [mem_sortedUnique] at h1 h2
    rw [hsel p.1 CV h1 hCV, hsel p.2 CV h2 hCV]
    simp [halign p.1 p.2 CV h1 h2 hCV]
  have hres : n_crossings columns pred_trainval =
      .ok ((sortedUnique (columns.map Prod.snd)).map
        (fun CV => (CV, (tauPairs (sortedUnique (columns.map Prod.fst))).map
          (fun p => (p, countCrossings (sel p.1 CV).vals (sel p.2 CV).vals))))) := by
    rw [n_crossings]
    apply mapExcept_ok
    intro CV hCV
    rw [mem_sortedUnique] at hCV
    rw [hrow CV hCV]
    rfl
  have hentry : ∀ CV t1 t2, CV ∈ columns.map Prod.snd → t1 ∈ columns.map Prod.fst →
      t2 ∈ columns.map Prod.fst → t1 < t2 →
      crossEntry ((sortedUnique (columns.map Prod.snd)).map
        (fun CV => (CV, (tauPairs (sortedUnique (columns.map Prod.fst))).map
          (fun p => (p, countCrossings (sel p.1 CV).vals (sel p.2 CV).vals))))) CV t1 t2 =
        some (countCrossings (sel t1 CV).vals (sel t2 CV).vals) := by
    intro CV t1 t2 hCV h1 h2 hlt
    rw [crossEntry, alookup_map_self _ _ CV ((mem_sortedUnique CV _).mpr hCV)]
    exact alookup_map_self _ _ (t1, t2) ((mem_tauPairs _ _).mpr
      ⟨(mem_sortedUnique _ _).mpr h1, (mem_sortedUnique _ _).mpr h2, hlt⟩)
  refine ⟨_, hres, ?_, ?_, ?_⟩
  · intro CV hCV t1 t2 h1 h2 hlt
    exact hentry CV t1 t2 hCV h1 h2 hlt
  · rintro CV row hmem p c hpc
    obtain ⟨CV2, hCV2, heq⟩ := List.mem_map.mp hmem
    cases heq
    obtain ⟨p0, hp0, heq2⟩ := List.mem_map.mp hpc
    injection heq2 with e1 e2
    subst e1
    exact ((mem_tauPairs _ p0).mp hp0).2.2
  · intro CV t1 t2 hCV h1 h2 hlt hf
    rw [hentry CV t1 t2 hCV h1 h2 hlt]
    congr 1
    rw [countCrossings, List.countP_eq_zero]
    intro x hx
    have hle : x.1 ≤ x.2 := (List.forall₂_iff_zip.mp hf).2 (by simpa using hx)
    simp only [decide_eq_true_eq]
    exact not_lt.mpr hle

/-- A concrete two-quantile, one-fold prediction table for the C2 witness. -/
def selC2 : ℚ → ℕ → Series :=
  fun t _ => if t = 1 then ⟨[0, 1], [0, 5]⟩ else ⟨[0, 1], [3, 4]⟩

def predC2 : ℚ × ℕ → Option Series := fun c => some (selC2 c.1 c.2)

/-- C2, witness at a concrete two-quantile, one-fold table. -/
theorem C2_witness :
    ∃ res, n_crossings [((1 : ℚ), 0), ((2 : ℚ), 0)] predC2 = .ok res ∧
      (∀ CV, CV ∈ ([((1 : ℚ), 0), ((2 : ℚ), 0)].map Prod.snd) → ∀ t1 t2,
        t1 ∈ ([((1 : ℚ), 0), ((2 : ℚ), 0)].map Prod.fst) →
        t2 ∈ ([((1 : ℚ), 0), ((2 : ℚ), 0)].map Prod.fst) → t1 < t2 →
        crossEntry res CV t1 t2 =
          some (countCrossings (selC2 t1 CV).vals (selC2 t2 CV).vals)) ∧
      (∀ CV row, (CV, row) ∈ res → ∀ p c, (p, c) ∈ row → p.1 < p.2) ∧
      (∀ CV t1 t2, CV ∈ ([((1 : ℚ), 0), ((2 : ℚ), 0)].map Prod.snd) →
        t1 ∈ ([((1 : ℚ), 0), ((2 : ℚ), 0)].map Prod.fst) →
        t2 ∈ ([((1 : ℚ), 0), ((2 : ℚ), 0)].map Prod.fst) → t1 < t2 →
        List.Forall₂ (· ≤ ·) (selC2 t1 CV).vals (selC2 t2 CV).vals →
        crossEntry res CV t1 t2 = some 0) := by
  refine C2_n_crossings_correct [((1 : ℚ), 0), ((2 : ℚ), 0)] predC2 selC2
    (fun t CV _ _ => rfl) ?_
  intro t1 t2 CV _ _ _
  have h1 : ∀ t CV2, (selC2 t CV2).idx = [0, 1] := by
    intro t CV2
    by_cases h : t = (1 : ℚ) <;> simp [selC2, h]
  rw [h1, h1]

lemma getD_map_range {β : Type} (f : ℕ → β) (n i : ℕ) (d : β) (hi : i < n) :
    ((List.range n).map f).getD i d = f i := by
  rw [List.getD_eq_getElem?_getD, List.getElem?_map, List.getElem?_range hi]
  rfl

lemma filterMap_id_length (vs : List (Option ℚ)) (h : vs.all Option.isSome = true) :
    (vs.filterMap id).length = vs.length := by
  induction vs with
  | nil => rfl
  | cons a as ih =>
    simp only [List.all_cons, Bool.and_eq_true] at h
    cases a with
    | none => simp at h
    | some v => simp [ih h.2]

lemma tauColumnCells_ne_nil (t : Table) (tau : ℚ) (i : ℕ)
    (htau : tau ∈ t.map (fun c => c.1.1)) : tauColumnCells t tau i ≠ [] := by
  obtain ⟨c, hc, hceq⟩ := List.mem_map.mp htau
  rw [tauColumnCells]
  intro hnil
  have hmem : c ∈ t.filter (fun c => decide (c.1.1 = tau)) :=
    List.mem_filter.mpr ⟨hc, by simp [hceq]⟩
  rw [List.map_eq_nil_iff.mp hnil] at hmem
  exact absurd hmem (List.not_mem_nil c)

/-- C6: when the per-tau aggregation loop succeeds with table t, the
avg_across_folds = false call returns t with all per-fold columns retained,
the avg_across_folds = true call returns the fold-collapsed table, and in
the collapsed table the cell for (metric row i, tau) is the arithmetic mean
across folds of the per-fold cells of that row at that tau (whenever those
cells are numbers). -/
theorem C6_avg_across_folds (output_trainval : Series) (columns : List (ℚ × ℕ))
    (pred_trainval : ℚ × ℕ → Option Series) (d0 : ℚ) (t : Table) (s : ℚ)
    (h : aggLoop output_trainval pred_trainval (sortedUnique (columns.map Prod.fst)) [] d0 =
      .ok (t, s)) :
    compute_metrics_for_all_taus output_trainval columns pred_trainval false d0 =
      .ok (.byFold t) ∧
    compute_metrics_for_all_taus output_trainval columns pred_trainval true d0 =
      .ok (.avged (avgLevel0 t)) ∧
    (∀ tau, tau ∈ t.map (fun c => c.1.1) → ∀ i, i < metricNames.length →
      ∀ vs, tauColumnCells t tau i = vs → vs.all Option.isSome = true →
        ∃ row, alookup (avgLevel0 t) tau = some row ∧
          row.getD i none = some ((vs.filterMap id).sum / vs.length)) := by
  refine ⟨?_, ?_, ?_⟩
  · rw [compute_metrics_for_all_taus, h]
    rfl
  · rw [compute_metrics_for_all_taus, h]
    rfl
  · intro tau htau i hi vs hvs hsome
    refine ⟨(List.range metricNames.length).map
      (fun j => pandasRowMean (tauColumnCells t tau j)), ?_, ?_⟩
    · exact alookup_map_self _ _ tau ((mem_sortedUnique tau _).mpr htau)
    · rw [getD_map_range _ _ i none hi, pandasRowMean, hvs, npMean]
      have hnil : vs ≠ [] := hvs ▸ tauColumnCells_ne_nil t tau i htau
      have hfl : (vs.filterMap id).length = vs.length := filterMap_id_length vs hsome
      have hfnil : vs.filterMap id ≠ [] := by
        intro hh
        rw [hh] at hfl
        simp at hfl
        exact hnil (List.length_eq_zero.mp hfl.symm)
      rw [if_neg hfnil, hfl]

/-- C6, witness: both return shapes at a concrete one-quantile table. -/
theorem C6_witness :
    ∃ (t : Table) (s : ℚ),
      aggLoop ⟨[0], [2]⟩ (fun _ => some ⟨[0], [1]⟩)
        (sortedUnique ([((1 : ℚ), 0)].map Prod.fst)) [] 1 = .ok (t, s) ∧
      compute_metrics_for_all_taus ⟨[0], [2]⟩ [((1 : ℚ), 0)] (fun _ => some ⟨[0], [1]⟩)
        false 1 = .ok (.byFold t) ∧
      compute_metrics_for_all_taus ⟨[0], [2]⟩ [((1 : ℚ), 0)] (fun _ => some ⟨[0], [1]⟩)
        true 1 = .ok (.avged (avgLevel0 t)) := by
  obtain ⟨A, hA⟩ := specified_tau_ok ⟨[0], [2]⟩ (fun _ => some ⟨[0], [1]⟩) (some []) 1 1
    (fun CV _ => ⟨⟨[0], [1]⟩, rfl, rfl⟩)
  have hloop : aggLoop ⟨[0], [2]⟩ (fun _ => some ⟨[0], [1]⟩)
      (sortedUnique ([((1 : ℚ), 0)].map Prod.fst)) [] 1 = .ok (A.ret, A.pinballDefault) := by
    show aggLoop ⟨[0], [2]⟩ (fun _ => some ⟨[0], [1]⟩) [(1 : ℚ)] [] 1 = _
    simp only [aggLoop, hA]
  obtain ⟨hc1, hc2, _⟩ := C6_avg_across_folds ⟨[0], [2]⟩ [((1 : ℚ), 0)]
    (fun _ => some ⟨[0], [1]⟩) 1 A.ret A.pinballDefault hloop
  exact ⟨A.ret, A.pinballDefault, hloop, hc1, hc2⟩
